import Mathlib

/-!
Verification development for the `bind` package (BIND statistics client).

The package has two parts:
* a generic XML-over-HTTP transport (`XMLClient.Get`), which resolves a
  relative path against a configured base URL with Go's `path.Join`,
  performs a GET, checks the status and streams the body into an XML
  decoder; and
* the statistics data model (`Statistics`, `Server`, `View`, `ZoneView`,
  `TaskManager`, `Task`, `ThreadModel`, `Counter`, `Gauge`) together with
  the `StatisticGroup` tokens.

The embedding below models the relevant Go standard library functions
(`path.Clean`, `path.Join`, the integer parsers used by `encoding/xml`)
and the transport, with the external collaborators (`url.Parse`, the
HTTP round trip, the XML decoder) supplied as explicit oracles.
-/

set_option linter.dupNamespace false

namespace Bind

/-! ## Go `path.Clean` and `path.Join`

`XMLClient.Get` computes the request path as `path.Join(u.Path, p)`.
`path.Join` concatenates the non-empty elements with a single `/` and
applies `path.Clean`.  The definitions below transliterate the Go
standard library implementation (`path/path.go`), working on `List Char`.
-/

/-- Detector for a doubled slash (two adjacent `/` characters) in a path. -/
def hasDD : List Char → Bool
  | a :: b :: rest => (a = '/' && b = '/') || hasDD (b :: rest)
  | _ => false

/-- The backtracking scan of `path.Clean`'s `..` handling: starting from
index `w` of `out`, step left while the index exceeds `dotdot` and the
character at the index is not `/`.  Mirrors the inner `for` loop
`for out.w > dotdot && out.index(out.w) != '/' { out.w-- }` together with
the preceding `out.w--` (the caller passes `w = out.length - 1`). -/
def backW (out : List Char) (dotdot : Nat) : Nat → Nat
  | 0 => 0
  | w + 1 =>
    if dotdot < w + 1 ∧ ¬ out.get? (w + 1) = some '/' then backW out dotdot w
    else w + 1

/-- Dropping the last path element of `out` (down to `dotdot`), as done by
`path.Clean` when it meets a `..` element and `out.w > dotdot`. -/
def rewind (out : List Char) (dotdot : Nat) : List Char :=
  out.take (backW out dotdot (out.length - 1))

/-- The main loop of Go `path.Clean`.  `s` is the unread suffix of the
input (`path[r:]`), `out` the written output buffer (`out[:w]`), `dotdot`
the limit index for `..` backtracking.  `fuel` bounds the number of loop
iterations; each iteration consumes at least one input character, so
`s.length` iterations always suffice and the `0` case is unreachable for
the fuel supplied by `goClean`. -/
def cleanLoop : Nat → List Char → Bool → List Char → Nat → List Char
  | 0, _, _, out, _ => out
  | _ + 1, [], _, out, _ => out
  | fuel + 1, c :: cs, rooted, out, dotdot =>
    if c = '/' then
      -- empty path element
      cleanLoop fuel cs rooted out dotdot
    else if c = '.' ∧ (cs = [] ∨ cs.head? = some '/') then
      -- "." element
      cleanLoop fuel cs rooted out dotdot
    else if c = '.' ∧ cs.head? = some '.' ∧ (cs.tail = [] ∨ cs.tail.head? = some '/') then
      -- ".." element
      if dotdot < out.length then
        -- can backtrack
        cleanLoop fuel cs.tail rooted (rewind out dotdot) dotdot
      else if rooted = false then
        -- cannot backtrack, but not rooted, so append a ".." element
        cleanLoop fuel cs.tail rooted
          ((if ¬ out.length = 0 then out ++ ['/'] else out) ++ ['.', '.'])
          ((if ¬ out.length = 0 then out ++ ['/'] else out) ++ ['.', '.']).length
      else
        cleanLoop fuel cs.tail rooted out dotdot
    else
      -- real path element: add a slash if needed, then copy the element
      cleanLoop fuel ((c :: cs).dropWhile (fun x => x != '/')) rooted
        ((if (rooted = true ∧ ¬ out.length = 1) ∨ (rooted = false ∧ ¬ out.length = 0) then
            out ++ ['/']
          else out) ++ (c :: cs).takeWhile (fun x => x != '/'))
        dotdot

/-- Go `path.Clean` on a character list. -/
def goClean (s : List Char) : List Char :=
  match s with
  | [] => ['.']
  | c :: cs =>
    if c = '/' then
      if cleanLoop (cs.length + 2) cs true ['/'] 1 = [] then ['.']
      else cleanLoop (cs.length + 2) cs true ['/'] 1
    else
      if cleanLoop (cs.length + 2) (c :: cs) false [] 0 = [] then ['.']
      else cleanLoop (cs.length + 2) (c :: cs) false [] 0

/-- The character at the last position of `l` (`l.get? (l.length - 1)`). -/
def lastC (l : List Char) : Option Char :=
  l.get? (l.length - 1)

/-- The invariant maintained by `cleanLoop` on its output buffer: no
doubled slash; the buffer ends in `/` only when it is exactly the root
`/` of a rooted path; `dotdot` stays within the buffer; a rooted buffer
starts with `/` and has `dotdot = 1`; in a non-rooted buffer a positive
`dotdot` sits just after an appended `..` (so the character before it is
`.`). -/
structure CleanInv (rooted : Bool) (out : List Char) (dotdot : Nat) : Prop where
  noDD : hasDD out = false
  lastNS : lastC out = some '/' → out = ['/'] ∧ rooted = true
  ddLe : dotdot ≤ out.length
  rootedH : rooted = true → dotdot = 1 ∧ out.head? = some '/'
  ddDot : rooted = false → 0 < dotdot → out.get? (dotdot - 1) = some '.'

/-- Go `path.Join` restricted to two elements (the shape used at
`u.Path = path.Join(u.Path, p)`): concatenate the non-empty elements with
a single `/` and `Clean` the result; the join of two empty strings is
empty. -/
def joinPath (a b : List Char) : List Char :=
  if a = [] ∧ b = [] then []
  else if a = [] then goClean b
  else goClean (a ++ '/' :: b)

/-- `path.Join` on strings, as used by `XMLClient.Get`. -/
def goJoin (a b : String) : String :=
  String.mk (joinPath a.data b.data)

/-! ## The transport: `XMLClient` and `Get`

`Get` is embedded as a pure function over explicit oracles for its
external collaborators: `url.Parse` (an oracle in `XMLEffects`), the
injected HTTP client (`XMLClient.http`, mirroring the `http` field of the
Go struct), and the XML decoder (an oracle in `XMLEffects`; it receives
the current target value and returns the possibly modified one, since a
failing decode may have partially written the target).

`defer resp.Body.Close()` is modelled by the `bodyClosed` field of the
outcome: once a response has been obtained, the close runs when the
function returns, whatever the exit path, so the outcome built at that
point records the closed stream; exits taken before a response exists
report `none` (no stream was ever acquired).
-/

/-- A parsed URL, holding the components of `url.URL` that `Get` uses. -/
structure URLRec where
  scheme : String
  host : String
  path : String
deriving Repr, DecidableEq

/-- Prefix test on character lists (first argument is the candidate
leading part). -/
def listPre : List Char → List Char → Bool
  | [], _ => true
  | _ :: _, [] => false
  | a :: as, b :: bs => a = b && listPre as bs

/-- String version of `listPre`. -/
def strStartsWith (s pre : String) : Bool :=
  listPre pre.data s.data

/-- The fragment of `url.URL.String` relevant here: scheme, `://`, host,
and the path, inserting a `/` when the host is non-empty and the path is
relative. -/
def urlString (u : URLRec) : String :=
  u.scheme ++ "://" ++ u.host ++
    (if ¬ u.path = "" ∧ ¬ u.host = "" ∧ strStartsWith u.path "/" = false then "/" else "") ++
    u.path

/-- An HTTP response as `Get` observes it: status code, status text and a
body of abstract type `β`. -/
structure HttpResponse (β : Type) where
  statusCode : Nat
  status : String
  body : β
deriving Repr

/-- `XMLClient` from the source: the base URL string and the injected
HTTP client, the latter modelled by its observable behaviour (a GET
returning either a transport error or a response). -/
structure XMLClient (β : Type) where
  url : String
  http : String → Except String (HttpResponse β)

/-- `NewXMLClient` from the source. -/
def NewXMLClient {β : Type} (url : String) (c : String → Except String (HttpResponse β)) :
    XMLClient β :=
  { url := url, http := c }

/-- Oracles for the remaining external collaborators of `Get`:
`url.Parse` and the XML decoder. -/
structure XMLEffects (α β : Type) where
  parseURL : String → Except String URLRec
  decode : β → α → Except String Unit × α

/-- Everything observable about one `Get` call: the returned error (if
any), the final value of the decode target `v`, the final receiver, and
whether the response body stream was closed (`none` when no response was
ever obtained). -/
structure GetOutcome (α β : Type) where
  err : Option String
  v : α
  client : XMLClient β
  bodyClosed : Option Bool

/-- Models Go `fmt` `%q` applied to a string without escape-needing
characters: the string surrounded by double quotes. -/
def goQuote (s : String) : String := "\"" ++ s ++ "\""

/-- The error text built at the `url.Parse` failure exit of `Get`
(format string `invalid URL %q: %s`). -/
def msgInvalidURL (u e : String) : String := "invalid URL " ++ goQuote u ++ ": " ++ e

/-- The error text built at the HTTP failure exit of `Get`
(format string `error querying stats: %s`). -/
def msgTransport (e : String) : String := "error querying stats: " ++ e

/-- The error text built at the non-200 exit of `Get`
(format string `unexpected status %s`). -/
def msgStatus (st : String) : String := "unexpected status " ++ st

/-- The error text built at the decode failure exit of `Get`
(format string `failed to unmarshal XML response: %s`). -/
def msgDecode (e : String) : String := "failed to unmarshal XML response: " ++ e

/-- The request URL computed by `Get` from the parsed base URL `u` and
the relative path `p`: the parsed URL with `u.Path = path.Join(u.Path, p)`,
rendered by `URL.String`. -/
def reqURL (u : URLRec) (p : String) : String :=
  urlString { u with path := goJoin u.path p }

/-- `XMLClient.Get` from the source, as a pure function of the oracles.
Control flow mirrors the Go body line by line: parse the base URL
(failure exits with the `invalid URL` error, no response obtained), join
the path, perform the GET (failure exits with the `error querying stats`
error, no response obtained), then, with the body close deferred, check
the status (non-200 exits with the `unexpected status` error) and
otherwise decode the body into `v` (failure exits with the
`failed to unmarshal XML response` error). -/
def goGetCore {α β : Type} (eff : XMLEffects α β) (c : XMLClient β) (p : String) (v : α) :
    GetOutcome α β :=
  match eff.parseURL c.url with
  | .error e => { err := some (msgInvalidURL c.url e), v := v, client := c, bodyClosed := none }
  | .ok u =>
    match c.http (reqURL u p) with
    | .error e => { err := some (msgTransport e), v := v, client := c, bodyClosed := none }
    | .ok resp =>
      -- from here on `defer resp.Body.Close()` is armed:
      -- every exit below closes the body before returning
      if ¬ resp.statusCode = 200 then
        { err := some (msgStatus resp.status), v := v, client := c, bodyClosed := some true }
      else
        match eff.decode resp.body v with
        | (.error e, v2) =>
          { err := some (msgDecode e), v := v2, client := c, bodyClosed := some true }
        | (.ok _, v2) =>
          { err := none, v := v2, client := c, bodyClosed := some true }

/-! ## Statistic groups -/

/-- `StatisticGroup` from the source: a string type. -/
abbrev StatisticGroup := String

/-- The `ServerStats` constant (`"server"`). -/
def ServerStats : StatisticGroup := "server"

/-- The `ViewStats` constant (`"view"`). -/
def ViewStats : StatisticGroup := "view"

/-- The `TaskStats` constant (`"tasks"`). -/
def TaskStats : StatisticGroup := "tasks"

/-- The statistic-group constants declared by the source, in declaration
order. -/
def declaredGroups : List StatisticGroup := [ServerStats, ViewStats, TaskStats]

/-! ## The statistics model -/

/-- Stand-in for Go `time.Time` (only its zero value and equality
matter here). -/
structure GoTime where
  unixNano : Int
deriving Repr, DecidableEq

/-- `Counter` from the source (`Counter uint64` kept as `Nat`; the XML
decoder enforces the 64-bit bound). -/
structure Counter where
  Name : String
  Counter : Nat
deriving Repr, DecidableEq

/-- `Gauge` from the source. -/
structure Gauge where
  Name : String
  Gauge : Nat
deriving Repr, DecidableEq

/-- `Task` from the source (`Quantum int64` kept as `Int`,
`References uint64` kept as `Nat`; the XML decoder enforces the 64-bit
bounds). -/
structure Task where
  ID : String
  Name : String
  Quantum : Int
  References : Nat
  State : String
deriving Repr, DecidableEq

/-- `ThreadModel` from the source (`Type` is a reserved word in Lean,
hence the guillemets). -/
structure ThreadModel where
  «Type» : String
  WorkerThreads : Nat
  DefaultQuantum : Nat
  TasksRunning : Nat
deriving Repr, DecidableEq

/-- `TaskManager` from the source. -/
structure TaskManager where
  Tasks : List Task
  ThreadModel : ThreadModel
deriving Repr, DecidableEq

/-- `ZoneCounter` from the source. -/
structure ZoneCounter where
  Name : String
  Serial : String
  ZoneRcode : List Counter
  ZoneQtype : List Counter
deriving Repr, DecidableEq

/-- `Server` from the source. -/
structure Server where
  BootTime : GoTime
  ConfigTime : GoTime
  IncomingQueries : List Counter
  IncomingRequests : List Counter
  NameServerStats : List Counter
  ZoneStatistics : List Counter
  ServerRcodes : List Counter
deriving Repr, DecidableEq

/-- `View` from the source. -/
structure View where
  Name : String
  Cache : List Gauge
  ResolverStats : List Counter
  ResolverQueries : List Counter
deriving Repr, DecidableEq

/-- `ZoneView` from the source. -/
structure ZoneView where
  Name : String
  ZoneData : List ZoneCounter
deriving Repr, DecidableEq

/-- `Statistics` from the source. -/
structure Statistics where
  Server : Server
  Views : List View
  ZoneViews : List ZoneView
  TaskManager : TaskManager
deriving Repr, DecidableEq

/-- The zero value of `ThreadModel`. -/
def zeroThreadModel : ThreadModel :=
  { «Type» := "", WorkerThreads := 0, DefaultQuantum := 0, TasksRunning := 0 }

/-- The zero value of `Statistics` (Go `Statistics{}`). -/
def emptyStatistics : Statistics :=
  { Server :=
      { BootTime := ⟨0⟩, ConfigTime := ⟨0⟩, IncomingQueries := [], IncomingRequests := [],
        NameServerStats := [], ZoneStatistics := [], ServerRcodes := [] }
    Views := []
    ZoneViews := []
    TaskManager := { Tasks := [], ThreadModel := zeroThreadModel } }

/-! ## The statistics client -/

/-- The raw per-group document a fetch produces, already shaped as the
entities the group contributes to the aggregate. -/
inductive GroupDoc : Type where
  | serverDoc (s : Server)
  | viewDoc (views : List View) (zoneViews : List ZoneView)
  | tasksDoc (tm : TaskManager)
deriving Repr

/-- Modelled from the spec: projecting one fetched group document into
the fields of the aggregate `Statistics` (spec 4.3: decode into an
intermediate per-group raw structure, then project that structure into
the corresponding fields of the aggregate; fields of other groups are
untouched). -/
def applyGroup (acc : Statistics) : GroupDoc → Statistics
  | .serverDoc s => { acc with Server := s }
  | .viewDoc vs zvs => { acc with Views := vs, ZoneViews := zvs }
  | .tasksDoc tm => { acc with TaskManager := tm }

/-- Modelled from the spec: the loop body of `Stats`.  The repository
declares `Client.Stats` only as an interface method; the implementation
is modelled from spec 4.3 and 7: fetch each requested group in order,
wrap a failure with the group being fetched and return it immediately
together with the zero `Statistics`, otherwise project the document into
the aggregate and continue. -/
def statsLoop (fetch : StatisticGroup → Except String GroupDoc) :
    List StatisticGroup → Statistics → Statistics × Option String
  | [], acc => (acc, none)
  | g :: gs, acc =>
    match fetch g with
    | .error e => (emptyStatistics, some ("error getting " ++ g ++ " stats: " ++ e))
    | .ok d => statsLoop fetch gs (applyGroup acc d)

/-- Modelled from the spec: `Client.Stats` (declared in the repository
only as the `Client` interface), returning the aggregate built from the
requested groups, or the zero `Statistics` together with the first
group's error. -/
def statsGo (fetch : StatisticGroup → Except String GroupDoc)
    (groups : List StatisticGroup) : Statistics × Option String :=
  statsLoop fetch groups emptyStatistics

/-! ## The XML decoder on the tagged model types

`encoding/xml` decoding is modelled on a tree of elements.  An element
carries its name, attributes, character data and child elements.  The
decode rules for the tag shapes the source uses are:

* a `string` field with tag `name` receives the character data of the
  matching child elements, the last match winning, and the zero value
  `""` when no child matches;
* an `int64`/`uint64` field parses the character data of each matching
  child with `strconv.ParseInt`/`ParseUint` (first failure aborts the
  whole decode), the last match winning and the zero value `0` when no
  child matches;
* a slice field with tag `a>b` collects the `b` children of every `a`
  child, in document order;
* a struct field with tag `name` decodes each matching child, the last
  winning, and is left at its zero value when no child matches;
* unknown elements are skipped.
-/

/-- An XML element: name, attributes, character data and children. -/
inductive Xml : Type where
  | elem (name : String) (attrs : List (String × String)) (text : String) (children : List Xml)
deriving Repr

/-- The element's name. -/
def Xml.name : Xml → String
  | .elem n _ _ _ => n

/-- The element's attributes. -/
def Xml.attrs : Xml → List (String × String)
  | .elem _ a _ _ => a

/-- The element's character data. -/
def Xml.text : Xml → String
  | .elem _ _ t _ => t

/-- The element's children. -/
def Xml.children : Xml → List Xml
  | .elem _ _ _ cs => cs

/-- The children of `x` named `n`, in document order. -/
def childrenNamed (x : Xml) (n : String) : List Xml :=
  x.children.filter (fun c => c.name = n)

/-- The decimal value of a non-empty all-digit character list. -/
def digitsVal : List Char → Option Nat
  | [] => none
  | [c] => if c.isDigit then some (c.toNat - '0'.toNat) else none
  | c :: cs =>
    if c.isDigit then
      match digitsVal cs with
      | some n => some ((c.toNat - '0'.toNat) * 10 ^ cs.length + n)
      | none => none
    else none

/-- Go `strconv.ParseUint(s, 10, 64)`: digits only, value below `2 ^ 64`. -/
def goParseUint64 (s : String) : Option Nat :=
  match digitsVal s.data with
  | some n => if n < 2 ^ 64 then some n else none
  | none => none

/-- Go `strconv.ParseInt(s, 10, 64)`: an optional sign followed by
digits, value within the signed 64-bit range. -/
def goParseInt64 (s : String) : Option Int :=
  match s.data with
  | '+' :: rest =>
    match digitsVal rest with
    | some n => if n < 2 ^ 63 then some (n : Int) else none
    | none => none
  | '-' :: rest =>
    match digitsVal rest with
    | some n => if n ≤ 2 ^ 63 then some (-(n : Int)) else none
    | none => none
  | l =>
    match digitsVal l with
    | some n => if n < 2 ^ 63 then some (n : Int) else none
    | none => none

/-- The last element of a list, or a default. -/
def lastOr {γ : Type} (l : List γ) (d : γ) : γ :=
  match l.getLast? with
  | some x => x
  | none => d

/-- Decode a string-typed field tagged `n`: character data of the last
matching child, `""` when absent. -/
def strField (x : Xml) (n : String) : String :=
  lastOr ((childrenNamed x n).map Xml.text) ""

/-- Decode an `int64` field tagged `n`: every matching child must parse
(first failure aborts), the last match wins, absence gives `0`. -/
def intField (x : Xml) (n : String) : Except String Int :=
  match (childrenNamed x n).mapM (fun c =>
      match goParseInt64 c.text with
      | some k => Except.ok k
      | none => Except.error ("cannot unmarshal " ++ goQuote c.text ++ " into an int64")) with
  | .ok ks => .ok (lastOr ks 0)
  | .error e => .error e

/-- Decode a `uint64` field tagged `n`: every matching child must parse
(first failure aborts), the last match wins, absence gives `0`. -/
def uintField (x : Xml) (n : String) : Except String Nat :=
  match (childrenNamed x n).mapM (fun c =>
      match goParseUint64 c.text with
      | some k => Except.ok k
      | none => Except.error ("cannot unmarshal " ++ goQuote c.text ++ " into a uint64")) with
  | .ok ks => .ok (lastOr ks 0)
  | .error e => .error e

/-- Decode a `Task` (tags `id`, `name`, `quantum`, `references`,
`state`). -/
def decodeTask (x : Xml) : Except String Task := do
  let q ← intField x "quantum"
  let r ← uintField x "references"
  .ok { ID := strField x "id", Name := strField x "name", Quantum := q,
        References := r, State := strField x "state" }

/-- Decode a `ThreadModel` (tags `type`, `worker-threads`,
`default-quantum`, `tasks-running`). -/
def decodeThreadModel (x : Xml) : Except String ThreadModel := do
  let w ← uintField x "worker-threads"
  let d ← uintField x "default-quantum"
  let t ← uintField x "tasks-running"
  .ok { «Type» := strField x "type", WorkerThreads := w, DefaultQuantum := d,
        TasksRunning := t }

/-- The `task` elements reached by the path tag `tasks>task` from `x`:
the `task` children of every `tasks` child, in document order. -/
def taskElems (x : Xml) : List Xml :=
  (childrenNamed x "tasks").flatMap (fun t => childrenNamed t "task")

/-- Decode a `TaskManager` (field tags `tasks>task` and `thread-model`):
decode every reached `task` element in order into `Tasks`, and every
`thread-model` child into `ThreadModel`, the last one winning and
absence leaving the zero value.  Elements with other names are
skipped. -/
def decodeTaskManager (x : Xml) : Except String TaskManager :=
  match (taskElems x).mapM decodeTask with
  | .error e => .error e
  | .ok tasks =>
    match (childrenNamed x "thread-model").mapM decodeThreadModel with
    | .error e => .error e
    | .ok tms => .ok { Tasks := tasks, ThreadModel := lastOr tms zeroThreadModel }

/-! ## Error classification

The four exits of `Get` build their message with four fixed format
strings.  A message is classified by the format it starts with; the
formats start with four distinct characters, so the classification is
unambiguous and errors from different failure conditions are
discriminable. -/

/-- The four failure conditions of `Get` (spec 7 names them
`ErrInvalidEndpoint`, `ErrTransport`, `ErrUnexpectedStatus`,
`ErrDecode`). -/
inductive ErrKind : Type where
  | invalidEndpoint
  | transport
  | unexpectedStatus
  | decodeFailure
deriving Repr, DecidableEq

/-- Classify an error message of `Get` by the fixed leading text of the
format string that built it. -/
def classifyErr (m : String) : Option ErrKind :=
  if listPre "invalid URL ".data m.data then some .invalidEndpoint
  else if listPre "error querying stats: ".data m.data then some .transport
  else if listPre "unexpected status ".data m.data then some .unexpectedStatus
  else if listPre "failed to unmarshal XML response: ".data m.data then some .decodeFailure
  else none

/-! ## Concrete instances used to witness the theorems -/

/-- A parsed base URL with root path `/stats`. -/
def uWit : URLRec := { scheme := "http", host := "h", path := "/stats" }

/-- An HTTP client answering every request with the given status and an
opaque body. -/
def httpOkWit (code : Nat) (st : String) : String → Except String (HttpResponse Unit) :=
  fun _ => Except.ok { statusCode := code, status := st, body := () }

/-- A client over `httpOkWit`. -/
def clientOkWit (code : Nat) (st : String) : XMLClient Unit :=
  NewXMLClient "http://h/stats" (httpOkWit code st)

/-- A client whose HTTP round trip always fails. -/
def clientFailWit : XMLClient Unit :=
  NewXMLClient "http://h/stats" (fun _ => Except.error "connection refused")

/-- Oracles whose URL parse succeeds and whose decode succeeds leaving
the target unchanged. -/
def effsOk : XMLEffects Nat Unit :=
  { parseURL := fun _ => Except.ok uWit, decode := fun _ a => (Except.ok (), a) }

/-- Oracles whose URL parse fails. -/
def effsParseFail : XMLEffects Nat Unit :=
  { parseURL := fun _ => Except.error "missing protocol scheme",
    decode := fun _ a => (Except.ok (), a) }

/-- Oracles whose decode fails after modifying the target. -/
def effsDecodeFail : XMLEffects Nat Unit :=
  { parseURL := fun _ => Except.ok uWit,
    decode := fun _ a => (Except.error "unexpected EOF", a + 1) }

/-- A fetch oracle failing on the server group and succeeding on the
others. -/
def fetchFailServer : StatisticGroup → Except String GroupDoc :=
  fun g =>
    if g = ServerStats then Except.error "unexpected status 404 Not Found"
    else Except.ok (.tasksDoc { Tasks := [], ThreadModel := zeroThreadModel })

/-- A task-manager document with a thread model but no task list. -/
def xNoTasks : Xml :=
  .elem "taskmgr" [] "" [
    .elem "unknown-extra" [] "zzz" [],
    .elem "thread-model" [] "" [
      .elem "type" [] "threaded" [],
      .elem "worker-threads" [] "4" [] ] ]

/-- The thread model contained in `xNoTasks`. -/
def tmWit : ThreadModel :=
  { «Type» := "threaded", WorkerThreads := 4, DefaultQuantum := 0, TasksRunning := 0 }

/-- The fixture task element of spec 8: `State="RUNNING"`,
`References=3`, `Quantum=-1`. -/
def taskFixture (id name qText refText state : String) : Xml :=
  .elem "task" [] "" [
    .elem "id" [] id [],
    .elem "name" [] name [],
    .elem "quantum" [] qText [],
    .elem "references" [] refText [],
    .elem "state" [] state [] ]

/-! ## Lemmas: doubled slashes and `path.Clean` -/

theorem hasDD_cons_cons (a b : Char) (t : List Char) :
    hasDD (a :: b :: t) = ((a = '/' && b = '/') || hasDD (b :: t)) := rfl

theorem hasDD_tail {a : Char} {t : List Char} (h : hasDD (a :: t) = false) :
    hasDD t = false := by
  cases t with
  | nil => rfl
  | cons b r =>
    rw [hasDD_cons_cons] at h
    exact (Bool.or_eq_false_iff.mp h).2

theorem hasDD_append_left {l2 : List Char} :
    ∀ {l1 : List Char}, hasDD (l1 ++ l2) = false → hasDD l1 = false := by
  intro l1
  induction l1 with
  | nil => intro _; rfl
  | cons a t ih =>
    intro h
    cases t with
    | nil => rfl
    | cons b r =>
      have h' : hasDD (a :: b :: (r ++ l2)) = false := h
      rw [hasDD_cons_cons] at h'
      have h2 := Bool.or_eq_false_iff.mp h'
      rw [hasDD_cons_cons]
      exact Bool.or_eq_false_iff.mpr ⟨h2.1, ih h2.2⟩

theorem hasDD_take {l : List Char} (n : Nat) (h : hasDD l = false) :
    hasDD (l.take n) = false := by
  have hsplit := List.take_append_drop n l
  rw [← hsplit] at h
  exact hasDD_append_left h

theorem noSlash_hasDD {l : List Char} (h : ∀ c ∈ l, ¬ c = '/') : hasDD l = false := by
  induction l with
  | nil => rfl
  | cons a t ih =>
    cases t with
    | nil => rfl
    | cons b r =>
      rw [hasDD_cons_cons]
      refine Bool.or_eq_false_iff.mpr ⟨?_, ih ?_⟩
      · have hb : ¬ b = '/' := h b (by simp)
        simp [hb]
      · intro c hc
        exact h c (List.mem_cons_of_mem a hc)

theorem lastC_cons {a : Char} {t : List Char} (h : ¬ t = []) : lastC (a :: t) = lastC t := by
  unfold lastC
  cases t with
  | nil => exact absurd rfl h
  | cons b r =>
    have heq : (a :: b :: r).length - 1 = ((b :: r).length - 1) + 1 := by simp
    rw [heq, List.get?_cons_succ]

theorem hasDD_append {l1 l2 : List Char} (h1 : hasDD l1 = false) (h2 : hasDD l2 = false)
    (hb : lastC l1 = some '/' → ¬ l2.head? = some '/') : hasDD (l1 ++ l2) = false := by
  induction l1 with
  | nil => simpa using h2
  | cons a t ih =>
    cases t with
    | nil =>
      cases l2 with
      | nil => rfl
      | cons b r =>
        rw [List.singleton_append, hasDD_cons_cons]
        refine Bool.or_eq_false_iff.mpr ⟨?_, h2⟩
        by_cases ha : a = '/'
        · have hbne : ¬ b = '/' := by
            have := hb (by simp [lastC, ha])
            simpa using this
          simp [hbne]
        · simp [ha]
    | cons c r =>
      have hgoal : (a :: c :: r) ++ l2 = a :: c :: (r ++ l2) := rfl
      rw [hgoal, hasDD_cons_cons]
      refine Bool.or_eq_false_iff.mpr ⟨?_, ?_⟩
      · rw [hasDD_cons_cons] at h1
        exact (Bool.or_eq_false_iff.mp h1).1
      · refine ih (hasDD_tail h1) ?_
        intro hl
        refine hb ?_
        rw [lastC_cons (by simp)]
        exact hl

theorem get?_append_offset (l1 l2 : List Char) (i : Nat) :
    (l1 ++ l2).get? (l1.length + i) = l2.get? i := by
  induction l1 with
  | nil => simp
  | cons a t ih =>
    have : (a :: t).length + i = (t.length + i) + 1 := by simp; omega
    rw [this, List.cons_append, List.get?_cons_succ]
    exact ih

theorem lastC_append_ne {l1 l2 : List Char} (h : ¬ l2 = []) :
    lastC (l1 ++ l2) = lastC l2 := by
  unfold lastC
  have h2 : 0 < l2.length := List.length_pos.mpr h
  have heq : (l1 ++ l2).length - 1 = l1.length + (l2.length - 1) := by
    rw [List.length_append]; omega
  rw [heq, get?_append_offset]

theorem lastC_mem {l : List Char} {a : Char} (h : lastC l = some a) : a ∈ l :=
  List.get?_mem h

theorem head?_take {l : List Char} {n : Nat} (h : 0 < n) : (l.take n).head? = l.head? := by
  cases l with
  | nil => simp
  | cons a t =>
    cases n with
    | zero => exact absurd h (by omega)
    | succ m => simp

theorem noDD_adj {l : List Char} (h : hasDD l = false) :
    ∀ i, l.get? i = some '/' → l.get? (i + 1) = some '/' → False := by
  induction l with
  | nil => intro i h1 _; simp at h1
  | cons a t ih =>
    intro i h1 h2
    cases i with
    | zero =>
      cases t with
      | nil => simp at h2
      | cons b r =>
        rw [List.get?_cons_zero] at h1
        rw [List.get?_cons_succ, List.get?_cons_zero] at h2
        have ha : a = '/' := by injection h1
        have hbv : b = '/' := by injection h2
        rw [hasDD_cons_cons] at h
        simp [ha, hbv] at h
    | succ j =>
      rw [List.get?_cons_succ] at h1 h2
      exact ih (hasDD_tail h) j h1 h2

theorem backW_spec (out : List Char) (dd : Nat) :
    ∀ w, dd ≤ w → dd ≤ backW out dd w ∧ backW out dd w ≤ w ∧
      (backW out dd w = dd ∨ out.get? (backW out dd w) = some '/') := by
  intro w
  induction w with
  | zero =>
    intro h
    have h0 : dd = 0 := Nat.le_zero.mp h
    simp [backW, h0]
  | succ m ih =>
    intro h
    by_cases hc : dd < m + 1 ∧ ¬ out.get? (m + 1) = some '/'
    · rw [backW, if_pos hc]
      have hdm : dd ≤ m := by omega
      obtain ⟨ha, hb, hcc⟩ := ih hdm
      exact ⟨ha, Nat.le_succ_of_le hb, hcc⟩
    · rw [backW, if_neg hc]
      refine ⟨h, Nat.le_refl _, ?_⟩
      by_cases hd : dd < m + 1
      · right
        by_cases hs : out.get? (m + 1) = some '/'
        · exact hs
        · exact absurd ⟨hd, hs⟩ hc
      · left; omega

theorem inv_rewind {rooted : Bool} {out : List Char} {dd : Nat}
    (hinv : CleanInv rooted out dd) (h : dd < out.length) :
    CleanInv rooted (rewind out dd) dd := by
  obtain ⟨hdd, hlast, hle, hroot, hdot⟩ := hinv
  unfold rewind
  obtain ⟨hw1, hw2, hw3⟩ := backW_spec out dd (out.length - 1) (by omega)
  set w := backW out dd (out.length - 1) with hwdef
  have hwlen : w ≤ out.length := by omega
  have hlen : (out.take w).length = w := by
    rw [List.length_take]; omega
  constructor
  · exact hasDD_take w hdd
  · intro hl
    have hwpos : 0 < w := by
      by_contra hz
      have : w = 0 := by omega
      rw [this] at hl
      simp [lastC] at hl
    have hgl : out.get? (w - 1) = some '/' := by
      have hidx : (out.take w).get? ((out.take w).length - 1) = out.get? (w - 1) := by
        rw [hlen]
        exact List.get?_take (by omega)
      rw [lastC, hidx] at hl
      exact hl
    rcases hw3 with hwd | hws
    · -- stopped at the dotdot limit
      cases hrb : rooted with
      | true =>
        obtain ⟨hd1, hh⟩ := hroot hrb
        have hw1' : w = 1 := by omega
        cases out with
        | nil => simp at hle; omega
        | cons a t =>
          have ha : a = '/' := by
            rw [List.head?] at hh
            injection hh
          refine ⟨?_, rfl⟩
          rw [hw1', ha]
          simp
      | false =>
        have hdpos : 0 < dd := by omega
        have := hdot hrb hdpos
        rw [hwd] at hgl
        rw [this] at hgl
        exact absurd (by injection hgl) (by decide)
    · -- stopped at a slash in the buffer
      have : out.get? ((w - 1) + 1) = some '/' := by
        have : (w - 1) + 1 = w := by omega
        rw [this]
        exact hws
      exact (noDD_adj hdd (w - 1) hgl this).elim
  · omega
  · intro hr
    obtain ⟨hd1, hh⟩ := hroot hr
    refine ⟨hd1, ?_⟩
    rw [head?_take (by omega)]
    exact hh
  · intro hr hpos
    have hlt : dd - 1 < w := by omega
    rw [List.get?_take hlt]
    exact hdot hr hpos

theorem inv_dotdot_append {out : List Char} {dd : Nat}
    (hinv : CleanInv false out dd) :
    CleanInv false ((if ¬ out.length = 0 then out ++ ['/'] else out) ++ ['.', '.'])
      ((if ¬ out.length = 0 then out ++ ['/'] else out) ++ ['.', '.']).length := by
  obtain ⟨hdd, hlast, hle, _, hdot⟩ := hinv
  by_cases hne : ¬ out.length = 0
  · rw [if_pos hne]
    have houtlast : ¬ lastC out = some '/' := by
      intro hl
      exact absurd (hlast hl).2 (by decide)
    have hall : (out ++ ['/']) ++ ['.', '.'] = out ++ ['/', '.', '.'] := by
      rw [List.append_assoc]; rfl
    rw [hall]
    have hnodd : hasDD (out ++ ['/', '.', '.']) = false := by
      refine hasDD_append hdd (by decide) ?_
      intro hl
      exact absurd hl houtlast
    constructor
    · exact hnodd
    · intro hl
      rw [lastC_append_ne (by simp)] at hl
      exact absurd (by injection hl) (by decide)
    · exact Nat.le_refl _
    · intro hr; exact absurd hr (by decide)
    · intro _ _
      show (out ++ ['/', '.', '.']).get? ((out ++ ['/', '.', '.']).length - 1) = some '.'
      have : lastC (out ++ ['/', '.', '.']) = some '.' := by
        rw [lastC_append_ne (by simp)]
        rfl
      exact this
  · rw [if_neg hne]
    have h0 : out = [] := by
      cases out with
      | nil => rfl
      | cons a t => simp at hne
    rw [h0]
    constructor
    · rfl
    · intro hl
      exact absurd (by injection hl : ('.' : Char) = '/') (by decide)
    · simp
    · intro hr; exact absurd hr (by decide)
    · intro _ _; rfl

theorem inv_default {rooted : Bool} {out : List Char} {dd : Nat} (hinv : CleanInv rooted out dd)
    {c : Char} (hc : ¬ c = '/') (cs : List Char) :
    CleanInv rooted
      ((if (rooted = true ∧ ¬ out.length = 1) ∨ (rooted = false ∧ ¬ out.length = 0) then
          out ++ ['/']
        else out) ++ (c :: cs).takeWhile (fun x => x != '/')) dd := by
  obtain ⟨hdd, hlast, hle, hroot, hdot⟩ := hinv
  have hseg : (c :: cs).takeWhile (fun x => x != '/') =
      c :: cs.takeWhile (fun x => x != '/') :=
    List.takeWhile_cons_of_pos (by simp [hc])
  have hsegmem : ∀ x ∈ (c :: cs).takeWhile (fun x => x != '/'), ¬ x = '/' := by
    intro x hx
    have := List.mem_takeWhile_imp hx
    simpa using this
  have hsegne : ¬ (c :: cs).takeWhile (fun x => x != '/') = [] := by
    rw [hseg]; simp
  have hsegDD : hasDD ((c :: cs).takeWhile (fun x => x != '/')) = false :=
    noSlash_hasDD hsegmem
  have hseghead : ¬ ((c :: cs).takeWhile (fun x => x != '/')).head? = some '/' := by
    rw [hseg]
    intro hl
    exact hc (by injection hl)
  by_cases hcond : (rooted = true ∧ ¬ out.length = 1) ∨ (rooted = false ∧ ¬ out.length = 0)
  · rw [if_pos hcond]
    have houtne : ¬ lastC out = some '/' := by
      intro hl
      obtain ⟨ho, hr⟩ := hlast hl
      rcases hcond with ⟨_, hlen⟩ | ⟨hrf, _⟩
      · exact hlen (by rw [ho]; rfl)
      · rw [hr] at hrf; exact absurd hrf (by decide)
    have houtnil : ¬ out = [] := by
      intro h0
      rcases hcond with ⟨hrt, _⟩ | ⟨_, hlen⟩
      · obtain ⟨_, hh⟩ := hroot hrt
        rw [h0] at hh
        simp at hh
      · exact hlen (by rw [h0]; rfl)
    constructor
    · refine hasDD_append ?_ hsegDD ?_
      · refine hasDD_append hdd (by decide) ?_
        intro hl
        exact absurd hl houtne
      · intro _; exact hseghead
    · intro hl
      rw [lastC_append_ne hsegne] at hl
      exact absurd rfl (hsegmem _ (lastC_mem hl))
    · rw [List.length_append, List.length_append]
      omega
    · intro hr
      obtain ⟨h1, h2⟩ := hroot hr
      refine ⟨h1, ?_⟩
      rw [List.append_assoc, List.head?_append_of_ne_nil _ houtnil]
      exact h2
    · intro hr hpos
      have hlt : dd - 1 < out.length := by omega
      rw [List.append_assoc, List.get?_append hlt]
      exact hdot hr hpos
  · rw [if_neg hcond]
    constructor
    · refine hasDD_append hdd hsegDD ?_
      intro _; exact hseghead
    · intro hl
      rw [lastC_append_ne hsegne] at hl
      exact absurd rfl (hsegmem _ (lastC_mem hl))
    · rw [List.length_append]
      omega
    · intro hr
      obtain ⟨h1, h2⟩ := hroot hr
      have hne : ¬ out = [] := by
        intro h0
        rw [h0] at hle
        simp at hle
        omega
      exact ⟨h1, by rw [List.head?_append_of_ne_nil _ hne]; exact h2⟩
    · intro hr hpos
      have hlt : dd - 1 < out.length := by omega
      rw [List.get?_append hlt]
      exact hdot hr hpos

theorem cleanLoop_inv {rooted : Bool} :
    ∀ (fuel : Nat) (s out : List Char) (dotdot : Nat), CleanInv rooted out dotdot →
      hasDD (cleanLoop fuel s rooted out dotdot) = false := by
  intro fuel
  induction fuel with
  | zero =>
    intro s out dd hinv
    exact hinv.noDD
  | succ f ih =>
    intro s out dd hinv
    cases s with
    | nil => exact hinv.noDD
    | cons c cs =>
      rw [cleanLoop]
      by_cases h1 : c = '/'
      · rw [if_pos h1]
        exact ih cs out dd hinv
      · rw [if_neg h1]
        by_cases h2 : c = '.' ∧ (cs = [] ∨ cs.head? = some '/')
        · rw [if_pos h2]
          exact ih cs out dd hinv
        · rw [if_neg h2]
          by_cases h3 : c = '.' ∧ cs.head? = some '.' ∧ (cs.tail = [] ∨ cs.tail.head? = some '/')
          · rw [if_pos h3]
            by_cases h4 : dd < out.length
            · rw [if_pos h4]
              exact ih cs.tail _ dd (inv_rewind hinv h4)
            · rw [if_neg h4]
              by_cases h5 : rooted = false
              · rw [if_pos h5]
                subst h5
                exact ih cs.tail _ _ (inv_dotdot_append hinv)
              · rw [if_neg h5]
                exact ih cs.tail out dd hinv
          · rw [if_neg h3]
            exact ih _ _ dd (inv_default hinv h1 cs)

theorem cleanInv_init_rooted : CleanInv true ['/'] 1 := by
  constructor
  · rfl
  · intro _; exact ⟨rfl, rfl⟩
  · exact Nat.le_refl _
  · intro _; exact ⟨rfl, rfl⟩
  · intro h; exact absurd h (by decide)

theorem cleanInv_init_plain : CleanInv false [] 0 := by
  constructor
  · rfl
  · intro h; exact absurd h (by simp [lastC])
  · exact Nat.le_refl _
  · intro h; exact absurd h (by decide)
  · intro _ h; exact absurd h (by omega)

theorem goClean_noDD (s : List Char) : hasDD (goClean s) = false := by
  cases s with
  | nil => rfl
  | cons c cs =>
    rw [goClean]
    by_cases h : c = '/'
    · rw [if_pos h]
      by_cases he : cleanLoop (cs.length + 2) cs true ['/'] 1 = []
      · rw [if_pos he]; rfl
      · rw [if_neg he]
        exact cleanLoop_inv (cs.length + 2) cs ['/'] 1 cleanInv_init_rooted
    · rw [if_neg h]
      by_cases he : cleanLoop (cs.length + 2) (c :: cs) false [] 0 = []
      · rw [if_pos he]; rfl
      · rw [if_neg he]
        exact cleanLoop_inv (cs.length + 2) (c :: cs) [] 0 cleanInv_init_plain

theorem joinPath_noDD (a b : List Char) : hasDD (joinPath a b) = false := by
  unfold joinPath
  by_cases h1 : a = [] ∧ b = []
  · rw [if_pos h1]; rfl
  · rw [if_neg h1]
    by_cases h2 : a = []
    · rw [if_pos h2]
      exact goClean_noDD b
    · rw [if_neg h2]
      exact goClean_noDD _

/-! ## Lemmas: error message classification -/

theorem listPre_refl_append (p r : List Char) : listPre p (p ++ r) = true := by
  induction p with
  | nil => rfl
  | cons a t ih => simp [listPre, ih]

theorem listPre_head_ne (a b : Char) {p m : List Char} (hp : p.head? = some a)
    (hm : m.head? = some b) (hne : ¬ a = b) : listPre p m = false := by
  cases p with
  | nil => simp at hp
  | cons x xs =>
    cases m with
    | nil => rfl
    | cons y ys =>
      have hx : x = a := by injection hp
      have hy : y = b := by injection hm
      subst hx; subst hy
      simp [listPre, hne]

theorem head_data_append {s : String} (t : String) {c : Char} (h : s.data.head? = some c) :
    (s ++ t).data.head? = some c := by
  rw [String.data_append]
  cases hs : s.data with
  | nil => rw [hs] at h; simp at h
  | cons a r =>
    rw [hs] at h
    simpa using h

theorem classify_invalid (u e : String) :
    classifyErr (msgInvalidURL u e) = some ErrKind.invalidEndpoint := by
  have h1 : listPre "invalid URL ".data (msgInvalidURL u e).data = true := by
    have hd : (msgInvalidURL u e).data = "invalid URL ".data ++ ((goQuote u).data ++ (": ".data ++ e.data)) := by
      unfold msgInvalidURL
      rw [String.data_append, String.data_append, String.data_append, List.append_assoc,
        List.append_assoc]
    rw [hd]
    exact listPre_refl_append _ _
  unfold classifyErr
  rw [h1]
  simp

theorem classify_transport (e : String) :
    classifyErr (msgTransport e) = some ErrKind.transport := by
  have h1 : listPre "invalid URL ".data (msgTransport e).data = false :=
    listPre_head_ne 'i' 'e' (by decide) (head_data_append _ (by decide)) (by decide)
  have h2 : listPre "error querying stats: ".data (msgTransport e).data = true := by
    unfold msgTransport
    rw [String.data_append]
    exact listPre_refl_append _ _
  unfold classifyErr
  rw [h1, h2]
  simp

theorem classify_status (st : String) :
    classifyErr (msgStatus st) = some ErrKind.unexpectedStatus := by
  have h1 : listPre "invalid URL ".data (msgStatus st).data = false :=
    listPre_head_ne 'i' 'u' (by decide) (head_data_append _ (by decide)) (by decide)
  have h2 : listPre "error querying stats: ".data (msgStatus st).data = false :=
    listPre_head_ne 'e' 'u' (by decide) (head_data_append _ (by decide)) (by decide)
  have h3 : listPre "unexpected status ".data (msgStatus st).data = true := by
    unfold msgStatus
    rw [String.data_append]
    exact listPre_refl_append _ _
  unfold classifyErr
  rw [h1, h2, h3]
  simp

theorem classify_decode (e : String) :
    classifyErr (msgDecode e) = some ErrKind.decodeFailure := by
  have h1 : listPre "invalid URL ".data (msgDecode e).data = false :=
    listPre_head_ne 'i' 'f' (by decide) (head_data_append _ (by decide)) (by decide)
  have h2 : listPre "error querying stats: ".data (msgDecode e).data = false :=
    listPre_head_ne 'e' 'f' (by decide) (head_data_append _ (by decide)) (by decide)
  have h3 : listPre "unexpected status ".data (msgDecode e).data = false :=
    listPre_head_ne 'u' 'f' (by decide) (head_data_append _ (by decide)) (by decide)
  have h4 : listPre "failed to unmarshal XML response: ".data (msgDecode e).data = true := by
    unfold msgDecode
    rw [String.data_append]
    exact listPre_refl_append _ _
  unfold classifyErr
  rw [h1, h2, h3, h4]
  simp

/-! ## Lemmas: the four runs of `Get` -/

theorem goGetCore_parse_error {α β : Type} {eff : XMLEffects α β} {c : XMLClient β}
    (p : String) (v : α) {e : String} (h : eff.parseURL c.url = .error e) :
    goGetCore eff c p v =
      { err := some (msgInvalidURL c.url e), v := v, client := c, bodyClosed := none } := by
  unfold goGetCore
  rw [h]

theorem goGetCore_http_error {α β : Type} {eff : XMLEffects α β} {c : XMLClient β}
    {p : String} (v : α) {u : URLRec} {e : String}
    (h1 : eff.parseURL c.url = .ok u) (h2 : c.http (reqURL u p) = .error e) :
    goGetCore eff c p v =
      { err := some (msgTransport e), v := v, client := c, bodyClosed := none } := by
  unfold goGetCore
  simp only [h1, h2]

theorem goGetCore_non200 {α β : Type} {eff : XMLEffects α β} {c : XMLClient β}
    {p : String} (v : α) {u : URLRec} {resp : HttpResponse β}
    (h1 : eff.parseURL c.url = .ok u) (h2 : c.http (reqURL u p) = .ok resp)
    (h3 : ¬ resp.statusCode = 200) :
    goGetCore eff c p v =
      { err := some (msgStatus resp.status), v := v, client := c, bodyClosed := some true } := by
  unfold goGetCore
  simp only [h1, h2]
  rw [if_pos h3]

theorem goGetCore_decode_error {α β : Type} {eff : XMLEffects α β} {c : XMLClient β}
    {p : String} {v : α} {u : URLRec} {resp : HttpResponse β} {e : String} {v2 : α}
    (h1 : eff.parseURL c.url = .ok u) (h2 : c.http (reqURL u p) = .ok resp)
    (h3 : resp.statusCode = 200) (h4 : eff.decode resp.body v = (.error e, v2)) :
    goGetCore eff c p v =
      { err := some (msgDecode e), v := v2, client := c, bodyClosed := some true } := by
  unfold goGetCore
  simp only [h1, h2]
  rw [if_neg (by omega : ¬ ¬ resp.statusCode = 200), h4]

theorem goGetCore_decode_ok {α β : Type} {eff : XMLEffects α β} {c : XMLClient β}
    {p : String} {v : α} {u : URLRec} {resp : HttpResponse β} {v2 : α}
    (h1 : eff.parseURL c.url = .ok u) (h2 : c.http (reqURL u p) = .ok resp)
    (h3 : resp.statusCode = 200) (h4 : eff.decode resp.body v = (.ok (), v2)) :
    goGetCore eff c p v =
      { err := none, v := v2, client := c, bodyClosed := some true } := by
  unfold goGetCore
  simp only [h1, h2]
  rw [if_neg (by omega : ¬ ¬ resp.statusCode = 200), h4]

/-! ## Lemmas: the statistics client loop -/

theorem statsLoop_error (fetch : StatisticGroup → Except String GroupDoc) :
    ∀ (groups : List StatisticGroup) (acc : Statistics) (g : StatisticGroup) (e : String),
      g ∈ groups → fetch g = .error e →
      (statsLoop fetch groups acc).1 = emptyStatistics ∧
      (statsLoop fetch groups acc).2.isSome = true := by
  intro groups
  induction groups with
  | nil =>
    intro acc g e hmem _
    exact absurd hmem (by simp)
  | cons h t ih =>
    intro acc g e hmem herr
    simp only [statsLoop]
    cases hf : fetch h with
    | error e2 => exact ⟨rfl, rfl⟩
    | ok d =>
      rcases List.mem_cons.mp hmem with heq | hmem2
      · subst heq
        rw [herr] at hf
        exact absurd hf (by simp)
      · exact ih _ g e hmem2 herr

/-! ## The claims -/

/-- C1: for every set of requested groups, `Stats` fails atomically: if
fetching any one requested group returns an error, the whole call
returns an error and only the zero `Statistics` value accompanies it (no
group's data reaches the caller). -/
theorem stats_fails_atomically (fetch : StatisticGroup → Except String GroupDoc)
    (groups : List StatisticGroup) (g : StatisticGroup) (e : String)
    (hmem : g ∈ groups) (herr : fetch g = .error e) :
    (statsGo fetch groups).1 = emptyStatistics ∧ (statsGo fetch groups).2.isSome = true :=
  statsLoop_error fetch groups emptyStatistics g e hmem herr

/-- Witness for `stats_fails_atomically`: requesting the server and tasks
groups against a fetcher whose server group fails yields the zero
`Statistics` and an error, even though the tasks group would have
succeeded. -/
theorem stats_fails_atomically_witness :
    (statsGo fetchFailServer [ServerStats, TaskStats]).1 = emptyStatistics ∧
    (statsGo fetchFailServer [ServerStats, TaskStats]).2.isSome = true :=
  stats_fails_atomically fetchFailServer [ServerStats, TaskStats] ServerStats
    "unexpected status 404 Not Found" (List.mem_cons_self _ _) rfl

/-- C2: each of the four failure conditions of `Get` is surfaced as an
error of a distinct, discriminable class (the classes the spec names
`ErrInvalidEndpoint`, `ErrTransport`, `ErrUnexpectedStatus`,
`ErrDecode`), the transport, decode and parse errors carry the
underlying cause, messages of distinct classes are never equal, and
every run of `Get` returns either success or an error of one of the four
classes (never a crash: the embedding is a total function). -/
theorem get_failure_modes {α β : Type} (eff : XMLEffects α β) (c : XMLClient β)
    (p : String) (v : α) :
    ((goGetCore eff c p v).err = none ∨
      ∃ m k, (goGetCore eff c p v).err = some m ∧ classifyErr m = some k) ∧
    (∀ e, eff.parseURL c.url = .error e →
      (goGetCore eff c p v).err = some (msgInvalidURL c.url e) ∧
      classifyErr (msgInvalidURL c.url e) = some ErrKind.invalidEndpoint ∧
      ∃ ctx, msgInvalidURL c.url e = ctx ++ e) ∧
    (∀ u e, eff.parseURL c.url = .ok u → c.http (reqURL u p) = .error e →
      (goGetCore eff c p v).err = some (msgTransport e) ∧
      classifyErr (msgTransport e) = some ErrKind.transport ∧
      ∃ ctx, msgTransport e = ctx ++ e) ∧
    (∀ u resp, eff.parseURL c.url = .ok u → c.http (reqURL u p) = .ok resp →
      ¬ resp.statusCode = 200 →
      (goGetCore eff c p v).err = some (msgStatus resp.status) ∧
      classifyErr (msgStatus resp.status) = some ErrKind.unexpectedStatus ∧
      ∃ ctx, msgStatus resp.status = ctx ++ resp.status) ∧
    (∀ u resp e v2, eff.parseURL c.url = .ok u → c.http (reqURL u p) = .ok resp →
      resp.statusCode = 200 → eff.decode resp.body v = (.error e, v2) →
      (goGetCore eff c p v).err = some (msgDecode e) ∧
      classifyErr (msgDecode e) = some ErrKind.decodeFailure ∧
      ∃ ctx, msgDecode e = ctx ++ e) ∧
    (∀ m1 m2 k1 k2, classifyErr m1 = some k1 → classifyErr m2 = some k2 →
      ¬ k1 = k2 → ¬ m1 = m2) := by
  refine ⟨?_, ?_, ?_, ?_, ?_, ?_⟩
  · cases hp : eff.parseURL c.url with
    | error e =>
      rw [goGetCore_parse_error p v hp]
      exact Or.inr ⟨_, _, rfl, classify_invalid c.url e⟩
    | ok u =>
      cases hh : c.http (reqURL u p) with
      | error e =>
        rw [goGetCore_http_error v hp hh]
        exact Or.inr ⟨_, _, rfl, classify_transport e⟩
      | ok resp =>
        by_cases hs : resp.statusCode = 200
        · rcases hd : eff.decode resp.body v with ⟨r, v2⟩
          cases r with
          | error e =>
            rw [goGetCore_decode_error hp hh hs hd]
            exact Or.inr ⟨_, _, rfl, classify_decode e⟩
          | ok a =>
            cases a
            rw [goGetCore_decode_ok hp hh hs hd]
            exact Or.inl rfl
        · rw [goGetCore_non200 v hp hh hs]
          exact Or.inr ⟨_, _, rfl, classify_status resp.status⟩
  · intro e he
    rw [goGetCore_parse_error p v he]
    exact ⟨rfl, classify_invalid c.url e, ⟨"invalid URL " ++ goQuote c.url ++ ": ", rfl⟩⟩
  · intro u e h1 h2
    rw [goGetCore_http_error v h1 h2]
    exact ⟨rfl, classify_transport e, ⟨"error querying stats: ", rfl⟩⟩
  · intro u resp h1 h2 h3
    rw [goGetCore_non200 v h1 h2 h3]
    exact ⟨rfl, classify_status resp.status, ⟨"unexpected status ", rfl⟩⟩
  · intro u resp e v2 h1 h2 h3 h4
    rw [goGetCore_decode_error h1 h2 h3 h4]
    exact ⟨rfl, classify_decode e, ⟨"failed to unmarshal XML response: ", rfl⟩⟩
  · intro m1 m2 k1 k2 h1 h2 hk hm
    rw [hm] at h1
    rw [h1] at h2
    exact hk (by injection h2)

/-- Witness for `get_failure_modes`: a run whose base URL fails to parse
returns the invalid-URL error, classified as the invalid-endpoint
class. -/
theorem get_failure_modes_witness :
    (goGetCore effsParseFail clientFailWit "server" (0 : Nat)).err =
      some (msgInvalidURL "http://h/stats" "missing protocol scheme") ∧
    classifyErr (msgInvalidURL "http://h/stats" "missing protocol scheme") =
      some ErrKind.invalidEndpoint := by
  have h := (get_failure_modes effsParseFail clientFailWit "server" 0).2.1
    "missing protocol scheme" rfl
  exact ⟨h.1, h.2.1⟩

/-- C3 counterexample: `Get` does not prevent path traversal above the
configured root.  With base path `/stats` and relative path
`../secret`, `path.Join` yields `/secret`, which is not under `/stats`;
the resulting request URL escapes the configured root path. -/
theorem join_escapes_root :
    goJoin "/stats" "../secret" = "/secret" ∧
    strStartsWith (goJoin "/stats" "../secret") "/stats" = false ∧
    reqURL { scheme := "http", host := "h", path := "/stats" } "../secret" =
      "http://h/secret" := by
  refine ⟨by decide, by decide, by decide⟩

/-- C3 amended: for every path argument, `Get` joins it against the base
URL path with Go `path.Join`, whose `Clean` normalization leaves no
double slash in the resulting request path; but the join does not stop
`..` from resolving above the configured root path (base `/stats` with
`../secret` yields `/secret`). -/
theorem join_normalizes_no_double_slash :
    (∀ a b : String, hasDD (goJoin a b).data = false) ∧
    goJoin "/stats" "../secret" = "/secret" := by
  constructor
  · intro a b
    exact joinPath_noDD a.data b.data
  · decide

/-- C4: whenever the HTTP response status is not 200, `Get` returns the
unexpected-status error carrying the response's status text, the decode
target is untouched, and the body is never decoded: the outcome is
independent of the decode oracle. -/
theorem get_non200_skips_decode {α β : Type} (eff : XMLEffects α β) (c : XMLClient β)
    (p : String) (v : α) (u : URLRec) (resp : HttpResponse β)
    (h1 : eff.parseURL c.url = .ok u) (h2 : c.http (reqURL u p) = .ok resp)
    (h3 : ¬ resp.statusCode = 200) :
    (goGetCore eff c p v).err = some (msgStatus resp.status) ∧
    (goGetCore eff c p v).v = v ∧
    ∀ d : β → α → Except String Unit × α,
      goGetCore { eff with decode := d } c p v = goGetCore eff c p v := by
  have hrun := goGetCore_non200 v h1 h2 h3
  refine ⟨by rw [hrun], by rw [hrun], ?_⟩
  intro d
  have h1' : ({ eff with decode := d } : XMLEffects α β).parseURL c.url = .ok u := h1
  have hrun2 := goGetCore_non200 v h1' h2 h3
  rw [hrun2, hrun]

/-- Witness for `get_non200_skips_decode`: a 404 response produces the
unexpected-status error and leaves the target at its prior value. -/
theorem get_non200_skips_decode_witness :
    (goGetCore effsOk (clientOkWit 404 "404 Not Found") "server" 7).err =
      some (msgStatus "404 Not Found") ∧
    (goGetCore effsOk (clientOkWit 404 "404 Not Found") "server" 7).v = 7 := by
  have h := get_non200_skips_decode effsOk (clientOkWit 404 "404 Not Found") "server" 7 uWit
    { statusCode := 404, status := "404 Not Found", body := () } rfl rfl (by decide)
  exact ⟨h.1, h.2.1⟩

/-- C5: on every exit path of `Get` taken after an HTTP response has
been obtained — success, non-200 status, and decode failure — the
response body stream is closed before `Get` returns. -/
theorem get_closes_body {α β : Type} (eff : XMLEffects α β) (c : XMLClient β)
    (p : String) (v : α) (u : URLRec) (resp : HttpResponse β)
    (h1 : eff.parseURL c.url = .ok u) (h2 : c.http (reqURL u p) = .ok resp) :
    (goGetCore eff c p v).bodyClosed = some true := by
  by_cases hs : resp.statusCode = 200
  · rcases hd : eff.decode resp.body v with ⟨r, v2⟩
    cases r with
    | error e => rw [goGetCore_decode_error h1 h2 hs hd]
    | ok a =>
      cases a
      rw [goGetCore_decode_ok h1 h2 hs hd]
  · rw [goGetCore_non200 v h1 h2 hs]

/-- Witness for `get_closes_body`: the decode-failure exit (200 response
whose body fails to unmarshal) still closes the body. -/
theorem get_closes_body_witness :
    (goGetCore effsDecodeFail (clientOkWit 200 "200 OK") "server" 0).bodyClosed = some true :=
  get_closes_body effsDecodeFail (clientOkWit 200 "200 OK") "server" 0 uWit
    { statusCode := 200, status := "200 OK", body := () } rfl rfl

/-- C6: decoding a task-manager document that omits an optional nested
element never fails because of the omission, and the corresponding
sequence is empty: whenever decoding succeeds with no `task` elements
reachable under `tasks`, the `Tasks` field is empty; and a document with
no reachable `task` elements whose remaining known elements decode
successfully decodes to a `TaskManager` with an empty task list (and the
zero `ThreadModel` when `thread-model` is also absent, by
`lastOr [] zeroThreadModel`). -/
theorem decode_absent_element_gives_empty (x : Xml) :
    (∀ tm, decodeTaskManager x = .ok tm → taskElems x = [] → tm.Tasks = []) ∧
    (∀ ms, taskElems x = [] →
      (childrenNamed x "thread-model").mapM decodeThreadModel = Except.ok ms →
      decodeTaskManager x = .ok { Tasks := [], ThreadModel := lastOr ms zeroThreadModel }) := by
  constructor
  · intro tm hok hempty
    have htasks : (taskElems x).mapM decodeTask = Except.ok [] := by rw [hempty]; rfl
    unfold decodeTaskManager at hok
    rw [htasks] at hok
    cases hms : (childrenNamed x "thread-model").mapM decodeThreadModel with
    | error e =>
      rw [hms] at hok
      simp at hok
    | ok tms =>
      rw [hms] at hok
      simp at hok
      rw [← hok]
  · intro ms hempty hms
    have htasks : (taskElems x).mapM decodeTask = Except.ok [] := by rw [hempty]; rfl
    unfold decodeTaskManager
    rw [htasks, hms]

/-- Witness for `decode_absent_element_gives_empty`: a document with an
unknown extra element and a thread model but no `tasks` element decodes
successfully with an empty task list. -/
theorem decode_absent_element_witness :
    decodeTaskManager xNoTasks = .ok { Tasks := [], ThreadModel := tmWit } :=
  (decode_absent_element_gives_empty xNoTasks).2 [tmWit] rfl rfl

/-- C7 counterexample: `StatisticGroup` is not a closed set of three
tokens: it is a string type, so `"bogus"` is a legal `StatisticGroup`
value outside the three declared constants. -/
theorem statistic_group_open_type :
    ¬ (("bogus" : StatisticGroup) = ServerStats ∨ ("bogus" : StatisticGroup) = ViewStats ∨
       ("bogus" : StatisticGroup) = TaskStats) ∧
    ("bogus" : StatisticGroup) ∉ declaredGroups := by
  exact ⟨by decide, by decide⟩

/-- C7 amended: the declared `StatisticGroup` constants enumerate
exactly the three pairwise-distinct tokens `server`, `view`, `tasks`;
but the type itself is an open string type, so values outside the set
are representable and nothing in the package rejects them. -/
theorem statistic_group_tokens :
    declaredGroups = ["server", "view", "tasks"] ∧
    ¬ ServerStats = ViewStats ∧ ¬ ServerStats = TaskStats ∧ ¬ ViewStats = TaskStats := by
  exact ⟨rfl, by decide, by decide, by decide⟩

/-- C8: `Task.Quantum` is signed, so a document reporting the sentinel
quantum `-1` decodes into a `Task` preserving the negative value exactly,
with the unsigned `References` count and a free-text `State` accepting
any token; and the parsers behind the fields are Go's signed and
unsigned 64-bit parsers. -/
theorem decode_task_signed_fields (i n s : String) :
    decodeTask (taskFixture i n "-1" "3" s) =
      .ok { ID := i, Name := n, Quantum := -1, References := 3, State := s } ∧
    goParseInt64 "-1" = some (-1) ∧
    goParseUint64 "3" = some 3 := by
  exact ⟨rfl, by decide, by decide⟩

/-- C9: when `Get` fails before decoding begins — malformed base URL,
transport failure, or non-200 status — the caller-supplied target value
is left completely unchanged. -/
theorem get_target_unchanged_before_decode {α β : Type} (eff : XMLEffects α β)
    (c : XMLClient β) (p : String) (v : α) :
    (∀ e, eff.parseURL c.url = .error e → (goGetCore eff c p v).v = v) ∧
    (∀ u e, eff.parseURL c.url = .ok u → c.http (reqURL u p) = .error e →
      (goGetCore eff c p v).v = v) ∧
    (∀ u resp, eff.parseURL c.url = .ok u → c.http (reqURL u p) = .ok resp →
      ¬ resp.statusCode = 200 → (goGetCore eff c p v).v = v) := by
  refine ⟨?_, ?_, ?_⟩
  · intro e he
    rw [goGetCore_parse_error p v he]
  · intro u e h1 h2
    rw [goGetCore_http_error v h1 h2]
  · intro u resp h1 h2 h3
    rw [goGetCore_non200 v h1 h2 h3]

/-- Witness for `get_target_unchanged_before_decode`: the target keeps
its prior value `5` under a parse failure, a transport failure, and a
404 response. -/
theorem get_target_unchanged_witness :
    (goGetCore effsParseFail clientFailWit "server" 5).v = 5 ∧
    (goGetCore effsOk clientFailWit "server" 5).v = 5 ∧
    (goGetCore effsOk (clientOkWit 404 "404 Not Found") "server" 5).v = 5 :=
  ⟨(get_target_unchanged_before_decode effsParseFail clientFailWit "server" 5).1
      "missing protocol scheme" rfl,
   (get_target_unchanged_before_decode effsOk clientFailWit "server" 5).2.1 uWit
      "connection refused" rfl rfl,
   (get_target_unchanged_before_decode effsOk (clientOkWit 404 "404 Not Found") "server" 5).2.2
      uWit { statusCode := 404, status := "404 Not Found", body := () } rfl rfl (by decide)⟩

/-- C10: `Get` never mutates the receiver: the client coming out of any
run — its `url` and `http` fields included — is the one that went in, so
repeated calls observe the configuration `NewXMLClient` was constructed
with. -/
theorem get_stateless_client {α β : Type} (eff : XMLEffects α β) (c : XMLClient β)
    (p : String) (v : α) :
    (goGetCore eff c p v).client = c ∧
    (goGetCore eff c p v).client.url = c.url ∧
    (goGetCore eff c p v).client.http = c.http := by
  have h : (goGetCore eff c p v).client = c := by
    cases hp : eff.parseURL c.url with
    | error e => rw [goGetCore_parse_error p v hp]
    | ok u =>
      cases hh : c.http (reqURL u p) with
      | error e => rw [goGetCore_http_error v hp hh]
      | ok resp =>
        by_cases hs : resp.statusCode = 200
        · rcases hd : eff.decode resp.body v with ⟨r, v2⟩
          cases r with
          | error e => rw [goGetCore_decode_error hp hh hs hd]
          | ok a =>
            cases a
            rw [goGetCore_decode_ok hp hh hs hd]
        · rw [goGetCore_non200 v hp hh hs]
  exact ⟨h, by rw [h], by rw [h]⟩

end Bind
